import Mathlib

/-!
Verification of the bounded-budget binary estimator from
`src/DP_Hypothesis_Testing.ipynb` (the `%%ag` estimator cell).

The source cell is:

  LOWER_BOUND = -2**32
  UPPER_BOUND = 2**32
  current_value = 0
  step_size = (UPPER_BOUND - LOWER_BOUND) / 4.0
  k = 64
  eps = 0.02
  t = 0.02
  for i in range(k):
    test = pdf > current_value
    result = test.mean(eps)
    if result[0] > t:
      current_value = current_value + step_size
    else:
      current_value = current_value - step_size
    step_size = step_size/2.

We embed the loop with exact rational arithmetic (the specification fixes
real-valued numeric semantics for the estimator; every constant in the source
is a dyadic rational).  The external noisy-comparison oracle
`(pdf > current_value).mean(eps)` is modelled as a function from the round
index and the queried threshold to either an answer in the unit interval or
an error: the round index determinizes the oracle's internal randomness and
remote state, and the fixed per-round epsilon is absorbed into the oracle.
The generalisation `EstimateMax` follows the source loop literally; its
initial estimate is the domain midpoint, which at the source's symmetric
domain is the source's literal seed `0` (proved below), and the notebook
cell itself is transliterated separately as `notebookCell` with the source's
literal constants.
-/

namespace DPNotebook

/-- Domain bounds `[lower, upper]` for the search (in the source:
`LOWER_BOUND = -2**32`, `UPPER_BOUND = 2**32`). -/
structure DomainBounds where
  lower : ℚ
  upper : ℚ
deriving DecidableEq

/-- Budget configuration: number of rounds `k`, per-round epsilon `eps`,
and the noise threshold `t` of the source cell.  `totalRounds` is an
integer so that calls such as `totalRounds = -1` are expressible; the loop
`for i in range(k)` runs `max k 0` times, as in Python. -/
structure BudgetConfig where
  totalRounds : ℤ
  perRoundEpsilon : ℚ
  noiseThreshold : ℚ
deriving DecidableEq

/-- The state mutated once per round: `current_value` and `step_size`. -/
structure SearchState where
  current : ℚ
  step : ℚ
deriving DecidableEq

/-- The external noisy-comparison oracle.  `oracle n q` is the result of the
`(n+1)`-st remote call `(pdf > q).mean(eps)`: either an answer (a noisy
estimate, nominally in `[0,1]`, of the fraction of private values exceeding
`q`) or an error of type `ε` (the remote call failing). -/
def Oracle (ε : Type) : Type := ℕ → ℚ → Except ε ℚ

/-- One round's state update given the oracle answer `r`: move the estimate
up by `step` when `r > t`, otherwise down by `step`; then halve `step`.
This is the loop body of the source cell. -/
def stepUpdate (t : ℚ) (st : SearchState) (r : ℚ) : SearchState :=
  if r > t then ⟨st.current + st.step, st.step / 2⟩
  else ⟨st.current - st.step, st.step / 2⟩

/-- The estimator loop, instrumented with the number of oracle invocations
made.  `runLoop t oracle n i st` runs `n` further rounds starting from state
`st`, the next round having index `i`.  A round queries the oracle at the
current estimate; an oracle error aborts the run immediately (the Python
exception propagates out of the loop), and the error value is returned
unchanged.  The second component counts how many times the oracle was
invoked (each invocation is one unit of privacy-budget spend). -/
def runLoop {ε : Type} (t : ℚ) (oracle : Oracle ε) :
    ℕ → ℕ → SearchState → Except ε SearchState × ℕ
  | 0, _, st => (Except.ok st, 0)
  | n + 1, i, st =>
    match oracle i st.current with
    | Except.error e => (Except.error e, 1)
    | Except.ok r =>
      let p := runLoop t oracle n (i + 1) (stepUpdate t st r)
      (p.1, p.2 + 1)

/-- Initial search state of a run over domain `d`: the estimate is seeded at
the domain midpoint and the step at a quarter of the domain width.  At the
source's symmetric domain the midpoint is exactly the source's literal seed
`current_value = 0` (theorem `claim_C8` below). -/
def initState (d : DomainBounds) : SearchState :=
  ⟨(d.lower + d.upper) / 2, (d.upper - d.lower) / 4⟩

/-- `EstimateMax domain oracle config`: run the source's estimator loop for
`totalRounds` rounds (none when `totalRounds < 1`, as `range` is then empty)
and return the final `current_value`, or the first oracle error. -/
def EstimateMax {ε : Type} (d : DomainBounds) (oracle : Oracle ε)
    (cfg : BudgetConfig) : Except ε ℚ :=
  Except.map SearchState.current
    (runLoop cfg.noiseThreshold oracle cfg.totalRounds.toNat 0 (initState d)).1

/-- The number of oracle invocations (privacy-budget units spent) made by a
run of `EstimateMax`. -/
def oracleCalls {ε : Type} (d : DomainBounds) (oracle : Oracle ε)
    (cfg : BudgetConfig) : ℕ :=
  (runLoop cfg.noiseThreshold oracle cfg.totalRounds.toNat 0 (initState d)).2

/-- A total oracle built from an answer function `f` (round index and
threshold to answer): the remote call always completes. -/
def okOracle (f : ℕ → ℚ → ℚ) : Oracle Empty := fun i q => Except.ok (f i q)

/-- Pure trajectory of the loop under a total oracle with answer function
`f`: `iterFrom t f n i st` is the state after `n` further rounds from state
`st`, the next round having index `i`. -/
def iterFrom (t : ℚ) (f : ℕ → ℚ → ℚ) : ℕ → ℕ → SearchState → SearchState
  | 0, _, st => st
  | n + 1, i, st => iterFrom t f n (i + 1) (stepUpdate t st (f i st.current))

/-- State of the run before round `n` (so `stateAt t f st 0 = st`), under a
total oracle with answer function `f`. -/
def stateAt (t : ℚ) (f : ℕ → ℚ → ℚ) (st : SearchState) (n : ℕ) : SearchState :=
  iterFrom t f n 0 st

/-- The source cell's lower bound `-2**32`. -/
def LOWER_BOUND : ℚ := -(2 ^ 32)

/-- The source cell's upper bound `2**32`. -/
def UPPER_BOUND : ℚ := 2 ^ 32

/-- The source cell's configuration: `k = 64`, `eps = 0.02`, `t = 0.02`. -/
def notebookConfig : BudgetConfig := ⟨64, 2 / 100, 2 / 100⟩

/-- The source's domain. -/
def notebookDomain : DomainBounds := ⟨LOWER_BOUND, UPPER_BOUND⟩

/-- Direct transliteration of the notebook cell with its literal constants:
seed `current_value = 0`, `step_size = (UPPER_BOUND - LOWER_BOUND) / 4`,
`k = 64` rounds, noise threshold `t = 0.02`. -/
def notebookCell {ε : Type} (oracle : Oracle ε) : Except ε ℚ :=
  Except.map SearchState.current
    (runLoop (2 / 100) oracle 64 0 ⟨0, (UPPER_BOUND - LOWER_BOUND) / 4⟩).1

/-- The noiseless comparison oracle for a true maximum `x`: answers exactly
`1` when `x` exceeds the queried threshold and `0` otherwise. -/
def noiselessOracle (x : ℚ) : ℕ → ℚ → ℚ := fun _ q => if x > q then 1 else 0

/-- An oracle whose remote call completes (answering `1`) on the first `j`
rounds and fails from round `j` on, always with the same error payload. -/
def failFrom (j : ℕ) : Oracle ℕ := fun i _ =>
  if i < j then Except.ok 1 else Except.error 7

/- ### Helper lemmas -/

/-- A run against an always-answering oracle completes all `n` rounds,
making exactly `n` oracle calls, and follows the pure trajectory. -/
lemma runLoop_total {ε : Type} (t : ℚ) (oracle : Oracle ε) (f : ℕ → ℚ → ℚ)
    (hor : ∀ i q, oracle i q = Except.ok (f i q)) :
    ∀ n i st, runLoop t oracle n i st = (Except.ok (iterFrom t f n i st), n) := by
  intro n
  induction n with
  | zero => intro i st; rfl
  | succ n ih =>
    intro i st
    simp [runLoop, hor, iterFrom, ih]

/-- Unfolding the last round of the pure trajectory instead of the first. -/
lemma iterFrom_succ_last (t : ℚ) (f : ℕ → ℚ → ℚ) :
    ∀ n i st, iterFrom t f (n + 1) i st =
      stepUpdate t (iterFrom t f n i st)
        (f (i + n) (iterFrom t f n i st).current) := by
  intro n
  induction n with
  | zero => intro i st; simp [iterFrom]
  | succ n ih =>
    intro i st
    show iterFrom t f (n + 1) (i + 1) (stepUpdate t st (f i st.current)) = _
    rw [ih]
    have h : i + 1 + n = i + (n + 1) := by omega
    rw [h]
    rfl

lemma stateAt_zero (t : ℚ) (f : ℕ → ℚ → ℚ) (st : SearchState) :
    stateAt t f st 0 = st := rfl

lemma stateAt_succ (t : ℚ) (f : ℕ → ℚ → ℚ) (st : SearchState) (n : ℕ) :
    stateAt t f st (n + 1) =
      stepUpdate t (stateAt t f st n) (f n (stateAt t f st n).current) := by
  unfold stateAt
  rw [iterFrom_succ_last]
  simp

/-- Both branches of the loop body halve the step. -/
lemma stepUpdate_step (t : ℚ) (st : SearchState) (r : ℚ) :
    (stepUpdate t st r).step = st.step / 2 := by
  unfold stepUpdate
  split <;> rfl

/-- When the answer exceeds the threshold, the loop body moves the estimate
up by the step. -/
lemma stepUpdate_current_pos (t : ℚ) (st : SearchState) (r : ℚ) (h : r > t) :
    (stepUpdate t st r).current = st.current + st.step := by
  unfold stepUpdate
  rw [if_pos h]

/-- Otherwise (including equality with the threshold), the loop body moves
the estimate down by the step. -/
lemma stepUpdate_current_neg (t : ℚ) (st : SearchState) (r : ℚ) (h : ¬ r > t) :
    (stepUpdate t st r).current = st.current - st.step := by
  unfold stepUpdate
  rw [if_neg h]

/-- The step after `n` rounds is the initial step divided by `2 ^ n`,
whatever the oracle answered. -/
lemma stateAt_step (t : ℚ) (f : ℕ → ℚ → ℚ) (st : SearchState) :
    ∀ n, (stateAt t f st n).step = st.step / 2 ^ n := by
  intro n
  induction n with
  | zero => simp [stateAt_zero]
  | succ n ih =>
    rw [stateAt_succ, stepUpdate_step, ih]
    ring

/-- Core convergence invariant: if the target `x` starts within twice the
step of the current estimate, and every round's decision agrees with the
comparison of `x` against the estimate queried that round, then `x` stays
within twice the (halving) step of the estimate. -/
lemma conv_key (t : ℚ) (f : ℕ → ℚ → ℚ) (st : SearchState) (x : ℚ) :
    ∀ n, |st.current - x| ≤ 2 * st.step →
      (∀ i, i < n →
        (f i (stateAt t f st i).current > t ↔ x > (stateAt t f st i).current)) →
      |(stateAt t f st n).current - x| ≤ 2 * (stateAt t f st n).step := by
  intro n
  induction n with
  | zero =>
    intro h0 _
    simpa [stateAt_zero] using h0
  | succ n ih =>
    intro h0 hcons
    have hn := ih h0 (fun i hi => hcons i (by omega))
    have hcur := hcons n (by omega)
    obtain ⟨h1, h2⟩ := abs_le.mp hn
    rw [stateAt_succ]
    by_cases hx : x > (stateAt t f st n).current
    · rw [stepUpdate_current_pos _ _ _ (hcur.mpr hx), stepUpdate_step, abs_le]
      constructor <;> linarith
    · have hdec : ¬ f n (stateAt t f st n).current > t := fun hcon => hx (hcur.mp hcon)
      rw [stepUpdate_current_neg _ _ _ hdec, stepUpdate_step, abs_le]
      push_neg at hx
      constructor <;> linarith

/-- Precision bound for a run seeded at the domain midpoint: the estimate
after `k` rounds is within `(upper - lower) / 2 ^ (k + 1)` of any value `x`
of the domain that is consistent with the realized comparison decisions. -/
lemma precision_bound (d : DomainBounds) (t : ℚ) (f : ℕ → ℚ → ℚ) (k : ℕ)
    (x : ℚ) (hxl : d.lower ≤ x) (hxu : x ≤ d.upper)
    (hcons : ∀ i, i < k →
      (f i (stateAt t f (initState d) i).current > t ↔
        x > (stateAt t f (initState d) i).current)) :
    |(stateAt t f (initState d) k).current - x| ≤
      (d.upper - d.lower) / 2 ^ (k + 1) := by
  have h0 : |(initState d).current - x| ≤ 2 * (initState d).step := by
    show |(d.lower + d.upper) / 2 - x| ≤ 2 * ((d.upper - d.lower) / 4)
    rw [abs_le]
    constructor <;> linarith
  have h := conv_key t f (initState d) x k h0 hcons
  rw [stateAt_step] at h
  have hstep : 2 * ((initState d).step / 2 ^ k) =
      (d.upper - d.lower) / 2 ^ (k + 1) := by
    show 2 * ((d.upper - d.lower) / 4 / 2 ^ k) = _
    rw [pow_succ]
    ring
  rw [hstep] at h
  exact h

/-- Displacement bound: however the oracle answers, after `n` rounds the
estimate has moved from its seed by at most
`2 * step₀ - 2 * stepₙ` (the partial geometric sum of the steps taken). -/
lemma disp_key (t : ℚ) (f : ℕ → ℚ → ℚ) (st : SearchState) (hs : 0 ≤ st.step) :
    ∀ n, |(stateAt t f st n).current - st.current| ≤
      2 * st.step - 2 * (stateAt t f st n).step := by
  intro n
  induction n with
  | zero => simp [stateAt_zero]
  | succ n ih =>
    have hpos : 0 ≤ (stateAt t f st n).step := by
      rw [stateAt_step]
      exact div_nonneg hs (by positivity)
    obtain ⟨h1, h2⟩ := abs_le.mp ih
    rw [stateAt_succ]
    by_cases h : f n (stateAt t f st n).current > t
    · rw [stepUpdate_current_pos _ _ _ h, stepUpdate_step, abs_le]
      constructor <;> linarith
    · rw [stepUpdate_current_neg _ _ _ h, stepUpdate_step, abs_le]
      constructor <;> linarith

/-- Monotonicity of the pure trajectory in the answer sequence (for a
nonnegative step and ordered seeds). -/
lemma mono_key (t : ℚ) (a b : ℕ → ℚ) (hab : ∀ j, b j ≤ a j) :
    ∀ n i c₁ c₂ s, 0 ≤ s → c₂ ≤ c₁ →
      (iterFrom t (fun j _ => b j) n i ⟨c₂, s⟩).current ≤
        (iterFrom t (fun j _ => a j) n i ⟨c₁, s⟩).current := by
  intro n
  induction n with
  | zero => intro i c₁ c₂ s _ hc; exact hc
  | succ n ih =>
    intro i c₁ c₂ s hs hc
    have ea : iterFrom t (fun j _ => a j) (n + 1) i ⟨c₁, s⟩ =
        iterFrom t (fun j _ => a j) n (i + 1) (stepUpdate t ⟨c₁, s⟩ (a i)) := rfl
    have eb : iterFrom t (fun j _ => b j) (n + 1) i ⟨c₂, s⟩ =
        iterFrom t (fun j _ => b j) n (i + 1) (stepUpdate t ⟨c₂, s⟩ (b i)) := rfl
    rw [ea, eb]
    have hhalf : (0 : ℚ) ≤ s / 2 := by linarith
    by_cases ha : a i > t <;> by_cases hb : b i > t
    · rw [show stepUpdate t ⟨c₁, s⟩ (a i) = ⟨c₁ + s, s / 2⟩ from by
        unfold stepUpdate; rw [if_pos ha]]
      rw [show stepUpdate t ⟨c₂, s⟩ (b i) = ⟨c₂ + s, s / 2⟩ from by
        unfold stepUpdate; rw [if_pos hb]]
      exact ih (i + 1) (c₁ + s) (c₂ + s) (s / 2) hhalf (by linarith)
    · rw [show stepUpdate t ⟨c₁, s⟩ (a i) = ⟨c₁ + s, s / 2⟩ from by
        unfold stepUpdate; rw [if_pos ha]]
      rw [show stepUpdate t ⟨c₂, s⟩ (b i) = ⟨c₂ - s, s / 2⟩ from by
        unfold stepUpdate; rw [if_neg hb]]
      exact ih (i + 1) (c₁ + s) (c₂ - s) (s / 2) hhalf (by linarith)
    · exact absurd (lt_of_lt_of_le hb (hab i)) ha
    · rw [show stepUpdate t ⟨c₁, s⟩ (a i) = ⟨c₁ - s, s / 2⟩ from by
        unfold stepUpdate; rw [if_neg ha]]
      rw [show stepUpdate t ⟨c₂, s⟩ (b i) = ⟨c₂ - s, s / 2⟩ from by
        unfold stepUpdate; rw [if_neg hb]]
      exact ih (i + 1) (c₁ - s) (c₂ - s) (s / 2) hhalf (by linarith)

/-- An oracle error on round `j` (the rounds before it answering) aborts
the run there: the error value is returned unchanged and exactly `j + 1`
invocations were made (the failing one included), with no retry. -/
lemma runLoop_error {ε : Type} (t : ℚ) (oracle : Oracle ε) (f : ℕ → ℚ → ℚ)
    (e : ε) :
    ∀ j n i st, j < n →
      (∀ m q, m < j → oracle (i + m) q = Except.ok (f (i + m) q)) →
      (∀ q, oracle (i + j) q = Except.error e) →
      runLoop t oracle n i st = (Except.error e, j + 1) := by
  intro j
  induction j with
  | zero =>
    intro n i st hn hok herr
    match n, hn with
    | n + 1, _ =>
      have h := herr st.current
      rw [show i + 0 = i from rfl] at h
      simp [runLoop, h]
  | succ j ih =>
    intro n i st hn hok herr
    match n, hn with
    | n + 1, _ =>
      have h0 : oracle i st.current = Except.ok (f i st.current) := by
        have := hok 0 st.current (by omega)
        simpa using this
      have hrec := ih n (i + 1) (stepUpdate t st (f i st.current)) (by omega)
        (fun m q hm => by
          have := hok (m + 1) q (by omega)
          rw [show i + (m + 1) = i + 1 + m from by omega] at this
          exact this)
        (fun q => by
          have := herr q
          rw [show i + (j + 1) = i + 1 + j from by omega] at this
          exact this)
      simp [runLoop, h0, hrec]

/- ### Claims -/

/-- C1: for every valid domain (`lower < upper`) and every
`totalRounds = k ≥ 1`, when the oracle answers every call, `EstimateMax`
invokes the oracle exactly `k` times — never more, never fewer — and returns
the value of `current` after exactly `k` rounds, with no early termination
whatever the oracle's answers are. -/
theorem claim_C1 {ε : Type} (d : DomainBounds) (k : ℤ) (eps t : ℚ)
    (oracle : Oracle ε) (f : ℕ → ℚ → ℚ)
    (hor : ∀ i q, oracle i q = Except.ok (f i q))
    (hd : d.lower < d.upper) (hk : 1 ≤ k) :
    oracleCalls d oracle ⟨k, eps, t⟩ = k.toNat ∧ (k.toNat : ℤ) = k ∧
    EstimateMax d oracle ⟨k, eps, t⟩ =
      Except.ok (stateAt t f (initState d) k.toNat).current := by
  have h := runLoop_total t oracle f hor k.toNat 0 (initState d)
  refine ⟨?_, ?_, ?_⟩
  · simp [oracleCalls, h]
  · omega
  · simp [EstimateMax, h, stateAt, Except.map]

theorem claim_C1_witness :
    (0 : ℚ) < 4 ∧ (1 : ℤ) ≤ 2 ∧
    (oracleCalls ⟨0, 4⟩ (okOracle fun _ _ => 1) ⟨2, 1, 0⟩ = (2 : ℤ).toNat ∧
     (((2 : ℤ).toNat : ℤ)) = 2 ∧
     EstimateMax ⟨0, 4⟩ (okOracle fun _ _ => 1) ⟨2, 1, 0⟩ =
       Except.ok
         (stateAt 0 (fun _ _ => 1) (initState ⟨0, 4⟩) (2 : ℤ).toNat).current) :=
  ⟨by norm_num, by norm_num,
    claim_C1 ⟨0, 4⟩ 2 1 0 (okOracle fun _ _ => 1) (fun _ _ => 1)
      (fun _ _ => rfl) (by norm_num) (by norm_num)⟩

/-- C4: in every run (any oracle answers), the step in effect after `i`
completed rounds — the step used in round `i` — equals
`(upper - lower) / 4 / 2 ^ i`, and the step strictly halves on each round. -/
theorem claim_C4 (d : DomainBounds) (t : ℚ) (f : ℕ → ℚ → ℚ) (k i : ℕ)
    (hd : d.lower < d.upper) (hik : i < k) :
    (stateAt t f (initState d) i).step = (d.upper - d.lower) / 4 / 2 ^ i ∧
    (stateAt t f (initState d) (i + 1)).step =
      (stateAt t f (initState d) i).step / 2 ∧
    (stateAt t f (initState d) (i + 1)).step <
      (stateAt t f (initState d) i).step := by
  have hD : (0 : ℚ) < d.upper - d.lower := by linarith
  have h1 : (stateAt t f (initState d) i).step = (d.upper - d.lower) / 4 / 2 ^ i := by
    rw [stateAt_step]
    rfl
  have h2 : (stateAt t f (initState d) (i + 1)).step =
      (stateAt t f (initState d) i).step / 2 := by
    rw [stateAt_succ, stepUpdate_step]
  have hpos : 0 < (stateAt t f (initState d) i).step := by
    rw [h1]
    have h4 : (0 : ℚ) < (d.upper - d.lower) / 4 := by linarith
    exact div_pos h4 (by positivity)
  exact ⟨h1, h2, by rw [h2]; linarith⟩

theorem claim_C4_witness :
    (0 : ℚ) < 4 ∧ (1 : ℕ) < 3 ∧
    ((stateAt 0 (fun _ _ => 1) (initState ⟨0, 4⟩) 1).step =
       ((4 : ℚ) - 0) / 4 / 2 ^ 1 ∧
     (stateAt 0 (fun _ _ => 1) (initState ⟨0, 4⟩) 2).step =
       (stateAt 0 (fun _ _ => 1) (initState ⟨0, 4⟩) 1).step / 2 ∧
     (stateAt 0 (fun _ _ => 1) (initState ⟨0, 4⟩) 2).step <
       (stateAt 0 (fun _ _ => 1) (initState ⟨0, 4⟩) 1).step) :=
  ⟨by norm_num, by norm_num,
    claim_C4 ⟨0, 4⟩ 0 (fun _ _ => 1) 3 1 (by norm_num) (by norm_num)⟩

/-- C5: in every round the estimate moves by exactly the current step:
upward precisely when the oracle's answer strictly exceeds the noise
threshold, downward otherwise (including when the answer equals the
threshold exactly). -/
theorem claim_C5 (d : DomainBounds) (t : ℚ) (f : ℕ → ℚ → ℚ) (i : ℕ)
    (hd : d.lower < d.upper) :
    ((stateAt t f (initState d) (i + 1)).current =
        (stateAt t f (initState d) i).current +
          (stateAt t f (initState d) i).step ↔
      f i (stateAt t f (initState d) i).current > t) ∧
    ((stateAt t f (initState d) (i + 1)).current =
        (stateAt t f (initState d) i).current -
          (stateAt t f (initState d) i).step ↔
      ¬ f i (stateAt t f (initState d) i).current > t) := by
  have hD : (0 : ℚ) < d.upper - d.lower := by linarith
  have hpos : 0 < (stateAt t f (initState d) i).step := by
    rw [stateAt_step]
    show 0 < (d.upper - d.lower) / 4 / 2 ^ i
    have h4 : (0 : ℚ) < (d.upper - d.lower) / 4 := by linarith
    exact div_pos h4 (by positivity)
  rw [stateAt_succ]
  by_cases h : f i (stateAt t f (initState d) i).current > t
  · rw [stepUpdate_current_pos _ _ _ h]
    constructor
    · exact ⟨fun _ => h, fun _ => rfl⟩
    · constructor
      · intro hEq
        exfalso
        linarith
      · intro hn
        exact absurd h hn
  · rw [stepUpdate_current_neg _ _ _ h]
    constructor
    · constructor
      · intro hEq
        exfalso
        linarith
      · intro hcon
        exact absurd hcon h
    · exact ⟨fun _ => h, fun _ => rfl⟩

/-- C2: under the noiseless oracle (answering exactly `1` when the true
maximum `x` exceeds the queried threshold and `0` otherwise, so that the
noise threshold satisfies `0 ≤ t < 1`, as the source's `t = 0.02` does),
for every `k ≥ 10` over the domain `[-2^32, 2^32]`, `EstimateMax` returns
an estimate within `(upper - lower) / 2 ^ (k + 1)` of the true maximum.
The scenario instance (`k = 64`, `t = 0.02`, `x = -151861469`, bound
`2 ^ 34 / 2 ^ 65`) is the witness below. -/
theorem claim_C2 (k : ℕ) (eps t x : ℚ) (hk : 10 ≤ k)
    (ht0 : 0 ≤ t) (ht1 : t < 1)
    (hxl : LOWER_BOUND ≤ x) (hxu : x ≤ UPPER_BOUND) :
    ∃ est : ℚ,
      EstimateMax notebookDomain (okOracle (noiselessOracle x))
          ⟨(k : ℤ), eps, t⟩ = Except.ok est ∧
      |est - x| ≤ (UPPER_BOUND - LOWER_BOUND) / 2 ^ (k + 1) := by
  have hrun := runLoop_total t (okOracle (noiselessOracle x)) (noiselessOracle x)
    (fun _ _ => rfl) (k : ℤ).toNat 0 (initState notebookDomain)
  have hkk : ((k : ℤ)).toNat = k := Int.toNat_natCast k
  rw [hkk] at hrun
  refine ⟨(stateAt t (noiselessOracle x) (initState notebookDomain) k).current,
    ?_, ?_⟩
  · simp [EstimateMax, hkk, hrun, stateAt, Except.map]
  · have hcons : ∀ i, i < k →
        (noiselessOracle x i
            (stateAt t (noiselessOracle x) (initState notebookDomain) i).current > t ↔
          x > (stateAt t (noiselessOracle x) (initState notebookDomain) i).current) := by
      intro i _
      by_cases hxc :
          x > (stateAt t (noiselessOracle x) (initState notebookDomain) i).current
      · have h1 : noiselessOracle x i
            (stateAt t (noiselessOracle x) (initState notebookDomain) i).current = 1 := by
          show (if x > (stateAt t (noiselessOracle x)
            (initState notebookDomain) i).current then (1 : ℚ) else 0) = 1
          rw [if_pos hxc]
        rw [h1]
        exact iff_of_true ht1 hxc
      · have h0 : noiselessOracle x i
            (stateAt t (noiselessOracle x) (initState notebookDomain) i).current = 0 := by
          show (if x > (stateAt t (noiselessOracle x)
            (initState notebookDomain) i).current then (1 : ℚ) else 0) = 0
          rw [if_neg hxc]
        rw [h0]
        exact iff_of_false (by linarith) hxc
    exact precision_bound notebookDomain t (noiselessOracle x) k x hxl hxu hcons

theorem claim_C2_witness :
    (10 : ℕ) ≤ 64 ∧ (0 : ℚ) ≤ 2 / 100 ∧ (2 / 100 : ℚ) < 1 ∧
    LOWER_BOUND ≤ (-151861469 : ℚ) ∧ (-151861469 : ℚ) ≤ UPPER_BOUND ∧
    ∃ est : ℚ,
      EstimateMax notebookDomain (okOracle (noiselessOracle (-151861469)))
          ⟨((64 : ℕ) : ℤ), 2 / 100, 2 / 100⟩ = Except.ok est ∧
      |est - (-151861469)| ≤ 2 ^ 34 / 2 ^ 65 := by
  have hl : LOWER_BOUND ≤ (-151861469 : ℚ) := by
    unfold LOWER_BOUND
    norm_num
  have hu : (-151861469 : ℚ) ≤ UPPER_BOUND := by
    unfold UPPER_BOUND
    norm_num
  refine ⟨by norm_num, by norm_num, by norm_num, hl, hu, ?_⟩
  obtain ⟨est, h1, h2⟩ := claim_C2 64 (2 / 100) (2 / 100) (-151861469)
    (by norm_num) (by norm_num) (by norm_num) hl hu
  refine ⟨est, h1, h2.trans ?_⟩
  unfold UPPER_BOUND LOWER_BOUND
  norm_num

/-- C3: precision bound independent of noise.  For every run over
`[lower, upper]` and every answer sequence, the estimate after `k` rounds
pins down the estimand to within `(upper - lower) / 2 ^ (k + 1)`: it is
within that bound of every domain value `x` consistent with the realized
comparison decisions (in particular the answers may be arbitrarily noisy
reals; only the induced up/down decisions relative to `x` matter, which is
how noise "can bias individual step decisions" without changing the
bound). -/
theorem claim_C3 (d : DomainBounds) (t : ℚ) (f : ℕ → ℚ → ℚ) (k : ℕ) (x : ℚ)
    (hxl : d.lower ≤ x) (hxu : x ≤ d.upper)
    (hcons : ∀ i, i < k →
      (f i (stateAt t f (initState d) i).current > t ↔
        x > (stateAt t f (initState d) i).current)) :
    |(stateAt t f (initState d) k).current - x| ≤
      (d.upper - d.lower) / 2 ^ (k + 1) :=
  precision_bound d t f k x hxl hxu hcons

theorem claim_C3_witness :
    (0 : ℚ) ≤ 3 ∧ (3 : ℚ) ≤ 4 ∧
    (∀ i, i < 1 →
      ((fun _ _ => (1 : ℚ)) i
          (stateAt 0 (fun _ _ => (1 : ℚ)) (initState ⟨0, 4⟩) i).current > 0 ↔
        (3 : ℚ) > (stateAt 0 (fun _ _ => (1 : ℚ)) (initState ⟨0, 4⟩) i).current)) ∧
    |(stateAt 0 (fun _ _ => (1 : ℚ)) (initState ⟨0, 4⟩) 1).current - 3| ≤
      ((4 : ℚ) - 0) / 2 ^ (1 + 1) := by
  have hcons : ∀ i, i < 1 →
      ((fun _ _ => (1 : ℚ)) i
          (stateAt 0 (fun _ _ => (1 : ℚ)) (initState ⟨0, 4⟩) i).current > 0 ↔
        (3 : ℚ) > (stateAt 0 (fun _ _ => (1 : ℚ)) (initState ⟨0, 4⟩) i).current) := by
    intro i hi
    interval_cases i
    constructor
    · intro _
      show (3 : ℚ) > (initState ⟨0, 4⟩).current
      show (3 : ℚ) > ((0 : ℚ) + 4) / 2
      norm_num
    · intro _
      norm_num
  exact ⟨by norm_num, by norm_num, hcons,
    claim_C3 ⟨0, 4⟩ 0 (fun _ _ => 1) 1 3 (by norm_num) (by norm_num) hcons⟩

/-- C9: with the run seeded at the domain midpoint and initial step
`(upper - lower) / 4`, the estimate after every round — in particular the
final one — lies strictly inside `(lower, upper)` for every answer
sequence, even though the code applies no clamping: the total displacement
is at most `(upper - lower) / 2 - 2·stepₙ`, strictly less than half the
domain width. -/
theorem claim_C9 (d : DomainBounds) (t : ℚ) (f : ℕ → ℚ → ℚ) (k n : ℕ)
    (hd : d.lower < d.upper) (hk : 1 ≤ k) (hn : n ≤ k) :
    d.lower < (stateAt t f (initState d) n).current ∧
    (stateAt t f (initState d) n).current < d.upper := by
  have hs0 : (0 : ℚ) ≤ (initState d).step := by
    show (0 : ℚ) ≤ (d.upper - d.lower) / 4
    linarith
  have hdisp := disp_key t f (initState d) hs0 n
  have hsn : (stateAt t f (initState d) n).step =
      (d.upper - d.lower) / 4 / 2 ^ n := by
    rw [stateAt_step]
    rfl
  have hsnpos : 0 < (stateAt t f (initState d) n).step := by
    rw [hsn]
    exact div_pos (by linarith) (by positivity)
  obtain ⟨h1, h2⟩ := abs_le.mp hdisp
  have hc0 : (initState d).current = (d.lower + d.upper) / 2 := rfl
  have hst0 : (initState d).step = (d.upper - d.lower) / 4 := rfl
  rw [hc0, hst0] at h1 h2
  constructor <;> linarith

theorem claim_C9_witness :
    (0 : ℚ) < 4 ∧ (1 : ℕ) ≤ 2 ∧ (1 : ℕ) ≤ 2 ∧
    ((0 : ℚ) < (stateAt 0 (fun _ _ => 1) (initState ⟨0, 4⟩) 1).current ∧
     (stateAt 0 (fun _ _ => 1) (initState ⟨0, 4⟩) 1).current < 4) :=
  ⟨by norm_num, by norm_num, by norm_num,
    claim_C9 ⟨0, 4⟩ 0 (fun _ _ => 1) 2 1 (by norm_num) (by norm_num) (by norm_num)⟩

/-- C10: viewing the estimator as a function of the sequence of oracle
answers, the final estimate is monotone non-decreasing in each answer:
pointwise larger answers yield a final estimate at least as large. -/
theorem claim_C10 (d : DomainBounds) (t eps : ℚ) (k : ℤ) (a b : ℕ → ℚ)
    (hd : d.lower ≤ d.upper) (hab : ∀ i, b i ≤ a i) :
    ∃ va vb : ℚ,
      EstimateMax d (okOracle fun i _ => a i) ⟨k, eps, t⟩ = Except.ok va ∧
      EstimateMax d (okOracle fun i _ => b i) ⟨k, eps, t⟩ = Except.ok vb ∧
      vb ≤ va := by
  have ha := runLoop_total t (okOracle fun i _ => a i) (fun i _ => a i)
    (fun _ _ => rfl) k.toNat 0 (initState d)
  have hb := runLoop_total t (okOracle fun i _ => b i) (fun i _ => b i)
    (fun _ _ => rfl) k.toNat 0 (initState d)
  refine ⟨(iterFrom t (fun i _ => a i) k.toNat 0 (initState d)).current,
          (iterFrom t (fun i _ => b i) k.toNat 0 (initState d)).current,
          ?_, ?_, ?_⟩
  · simp [EstimateMax, ha, Except.map]
  · simp [EstimateMax, hb, Except.map]
  · exact mono_key t a b hab k.toNat 0 ((d.lower + d.upper) / 2)
      ((d.lower + d.upper) / 2) ((d.upper - d.lower) / 4) (by linarith) le_rfl

theorem claim_C10_witness :
    (0 : ℚ) ≤ 4 ∧ (∀ i : ℕ, (fun _ : ℕ => (0 : ℚ)) i ≤ (fun _ : ℕ => (1 : ℚ)) i) ∧
    ∃ va vb : ℚ,
      EstimateMax ⟨0, 4⟩ (okOracle fun _ _ => (1 : ℚ)) ⟨2, 1, 0⟩ = Except.ok va ∧
      EstimateMax ⟨0, 4⟩ (okOracle fun _ _ => (0 : ℚ)) ⟨2, 1, 0⟩ = Except.ok vb ∧
      vb ≤ va :=
  ⟨by norm_num, fun _ => by norm_num,
    claim_C10 ⟨0, 4⟩ 0 1 2 (fun _ => 1) (fun _ => 0) (by norm_num)
      (fun _ => by norm_num)⟩

/-- C8: every estimation run starts with `currentEstimate` at the domain
midpoint `(lower + upper) / 2` and `stepSize = (upper - lower) / 4`; the
notebook cell's literal seed `current_value = 0` is exactly the midpoint of
its symmetric domain, so the transliterated cell coincides with
`EstimateMax` at the source's constants. -/
theorem claim_C8 (ε : Type) (oracle : Oracle ε) :
    notebookCell oracle = EstimateMax notebookDomain oracle notebookConfig ∧
    (initState notebookDomain).current = (LOWER_BOUND + UPPER_BOUND) / 2 ∧
    (initState notebookDomain).current = 0 ∧
    (initState notebookDomain).step = (UPPER_BOUND - LOWER_BOUND) / 4 := by
  have hmid : ((LOWER_BOUND + UPPER_BOUND) / 2 : ℚ) = 0 := by
    unfold LOWER_BOUND UPPER_BOUND
    norm_num
  have hinit : (⟨0, (UPPER_BOUND - LOWER_BOUND) / 4⟩ : SearchState) =
      initState notebookDomain := by
    show _ = (⟨(LOWER_BOUND + UPPER_BOUND) / 2,
      (UPPER_BOUND - LOWER_BOUND) / 4⟩ : SearchState)
    rw [hmid]
  refine ⟨?_, rfl, ?_, rfl⟩
  · show Except.map SearchState.current
        (runLoop (2 / 100) oracle 64 0 ⟨0, (UPPER_BOUND - LOWER_BOUND) / 4⟩).1 =
      Except.map SearchState.current
        (runLoop (2 / 100) oracle 64 0 (initState notebookDomain)).1
    rw [hinit]
  · show ((LOWER_BOUND + UPPER_BOUND) / 2 : ℚ) = 0
    exact hmid

/-- C6 counterexample: the code performs no configuration validation.  At
the concrete input `lower = upper = 0`, `totalRounds = 1` (so
`lower ≥ upper` holds and the claim demands an `InvalidConfiguration`
failure with zero oracle calls), the run instead completes normally and
invokes the oracle once; and at `totalRounds = 0` over `[0, 1]` the run
also completes normally (returning the seed) instead of failing. -/
theorem claim_C6_counterexample :
    (EstimateMax ⟨0, 0⟩ (okOracle fun _ _ => 0) ⟨1, 1, 0⟩ =
        Except.ok ((0 : ℚ) - 0) ∧
      oracleCalls ⟨0, 0⟩ (okOracle fun _ _ => 0) ⟨1, 1, 0⟩ = 1) ∧
    (EstimateMax ⟨0, 1⟩ (okOracle fun _ _ => 0) ⟨0, 1, 0⟩ =
        Except.ok (((0 : ℚ) + 1) / 2) ∧
      oracleCalls ⟨0, 1⟩ (okOracle fun _ _ => 0) ⟨0, 1, 0⟩ = 0) := by
  have h1 := runLoop_total 0 (okOracle fun _ _ => (0 : ℚ)) (fun _ _ => 0)
    (fun _ _ => rfl) 1 0 (initState ⟨0, 0⟩)
  constructor
  · constructor
    · show Except.map SearchState.current
          (runLoop 0 (okOracle fun _ _ => (0 : ℚ)) 1 0 (initState ⟨0, 0⟩)).1 = _
      rw [h1]
      show Except.ok (iterFrom 0 (fun _ _ => (0 : ℚ)) 1 0 (initState ⟨0, 0⟩)).current = _
      have hv : (iterFrom 0 (fun _ _ => (0 : ℚ)) 1 0 (initState ⟨0, 0⟩)).current =
          (0 : ℚ) - 0 := by
        show (stepUpdate 0 (initState ⟨0, 0⟩) 0).current = (0 : ℚ) - 0
        rw [stepUpdate_current_neg 0 (initState ⟨0, 0⟩) 0 (by norm_num)]
        show ((0 : ℚ) + 0) / 2 - ((0 : ℚ) - 0) / 4 = (0 : ℚ) - 0
        norm_num
      rw [hv]
    · show (runLoop 0 (okOracle fun _ _ => (0 : ℚ)) 1 0 (initState ⟨0, 0⟩)).2 = 1
      rw [h1]
  · exact ⟨rfl, rfl⟩

/-- C6 (amended): no configuration validation exists and no
`InvalidConfiguration` failure can occur — run errors come only from the
oracle.  With `totalRounds < 1` the loop body never executes: zero oracle
invocations are made and the seed (the domain midpoint) is returned
normally.  With `lower ≥ upper` and `totalRounds = k ≥ 1`, the run
proceeds normally and makes exactly `k` oracle invocations when the oracle
answers. -/
theorem claim_C6_amended {ε : Type} (d : DomainBounds) (k : ℤ) (eps t : ℚ)
    (oracle : Oracle ε) (f : ℕ → ℚ → ℚ)
    (hor : ∀ i q, oracle i q = Except.ok (f i q)) :
    (k < 1 →
      EstimateMax d oracle ⟨k, eps, t⟩ =
        Except.ok ((d.lower + d.upper) / 2) ∧
      oracleCalls d oracle ⟨k, eps, t⟩ = 0) ∧
    (d.lower ≥ d.upper → 1 ≤ k →
      EstimateMax d oracle ⟨k, eps, t⟩ =
        Except.ok (stateAt t f (initState d) k.toNat).current ∧
      oracleCalls d oracle ⟨k, eps, t⟩ = k.toNat ∧ (k.toNat : ℤ) = k) := by
  constructor
  · intro hk
    have h0 : k.toNat = 0 := by omega
    constructor
    · show Except.map SearchState.current
          (runLoop t oracle k.toNat 0 (initState d)).1 = _
      rw [h0]
      rfl
    · show (runLoop t oracle k.toNat 0 (initState d)).2 = 0
      rw [h0]
      rfl
  · intro _ hk
    have h := runLoop_total t oracle f hor k.toNat 0 (initState d)
    refine ⟨?_, ?_, by omega⟩
    · show Except.map SearchState.current
          (runLoop t oracle k.toNat 0 (initState d)).1 = _
      rw [h]
      rfl
    · show (runLoop t oracle k.toNat 0 (initState d)).2 = k.toNat
      rw [h]

theorem claim_C6_amended_witness :
    (((0 : ℤ) < 1 ∧
      EstimateMax ⟨0, 2⟩ (okOracle fun _ _ => 0) ⟨0, 1, 0⟩ =
        Except.ok (((0 : ℚ) + 2) / 2) ∧
      oracleCalls ⟨0, 2⟩ (okOracle fun _ _ => 0) ⟨0, 1, 0⟩ = 0)) ∧
    ((0 : ℚ) ≥ 0 ∧ (1 : ℤ) ≤ 2 ∧
      EstimateMax ⟨0, 0⟩ (okOracle fun _ _ => 0) ⟨2, 1, 0⟩ =
        Except.ok
          (stateAt 0 (fun _ _ => 0) (initState ⟨0, 0⟩) (2 : ℤ).toNat).current ∧
      oracleCalls ⟨0, 0⟩ (okOracle fun _ _ => 0) ⟨2, 1, 0⟩ = (2 : ℤ).toNat ∧
      (((2 : ℤ).toNat : ℤ)) = 2) := by
  have h1 := claim_C6_amended ⟨0, 2⟩ 0 1 0 (okOracle fun _ _ => 0)
    (fun _ _ => 0) (fun _ _ => rfl)
  have h2 := claim_C6_amended ⟨0, 0⟩ 2 1 0 (okOracle fun _ _ => 0)
    (fun _ _ => 0) (fun _ _ => rfl)
  have ha := h1.1 (by norm_num)
  have hb := h2.2 (by norm_num) (by norm_num)
  exact ⟨⟨by norm_num, ha.1, ha.2⟩,
    ⟨by norm_num, by norm_num, hb.1, hb.2.1, hb.2.2⟩⟩

/-- C7 counterexample: the run result does not report the number of rounds
(or budget) spent.  Two concrete 10-round runs whose oracles fail from
round 1 and from round 3 respectively spend different budgets (2 versus 4
oracle invocations) yet return exactly the same value to the caller, so
the caller cannot recover the rounds spent from what `EstimateMax`
reports. -/
theorem claim_C7_counterexample :
    EstimateMax ⟨0, 4⟩ (failFrom 1) ⟨10, 1, 0⟩ =
      EstimateMax ⟨0, 4⟩ (failFrom 3) ⟨10, 1, 0⟩ ∧
    oracleCalls ⟨0, 4⟩ (failFrom 1) ⟨10, 1, 0⟩ = 2 ∧
    oracleCalls ⟨0, 4⟩ (failFrom 3) ⟨10, 1, 0⟩ = 4 := by
  have h1 := runLoop_error 0 (failFrom 1) (fun _ _ => 1) 7 1 10 0
    (initState ⟨0, 4⟩) (by norm_num)
    (fun m q hm => by
      have hm1 : m < 1 := by omega
      show (if 0 + m < 1 then Except.ok 1 else Except.error 7) = Except.ok 1
      rw [if_pos (by omega)])
    (fun q => by
      show (if 0 + 1 < 1 then Except.ok 1 else Except.error 7) = Except.error 7
      rw [if_neg (by omega)])
  have h3 := runLoop_error 0 (failFrom 3) (fun _ _ => 1) 7 3 10 0
    (initState ⟨0, 4⟩) (by norm_num)
    (fun m q hm => by
      show (if 0 + m < 3 then Except.ok 1 else Except.error 7) = Except.ok 1
      rw [if_pos (by omega)])
    (fun q => by
      show (if 0 + 3 < 3 then Except.ok 1 else Except.error 7) = Except.error 7
      rw [if_neg (by omega)])
  refine ⟨?_, ?_, ?_⟩
  · show Except.map SearchState.current
        (runLoop 0 (failFrom 1) 10 0 (initState ⟨0, 4⟩)).1 =
      Except.map SearchState.current
        (runLoop 0 (failFrom 3) 10 0 (initState ⟨0, 4⟩)).1
    rw [h1, h3]
  · show (runLoop 0 (failFrom 1) 10 0 (initState ⟨0, 4⟩)).2 = 2
    rw [h1]
  · show (runLoop 0 (failFrom 3) 10 0 (initState ⟨0, 4⟩)).2 = 4
    rw [h3]

/-- C7 (amended): if the oracle fails on round `j` of a `k`-round run
(`j < k`, earlier rounds answering), `EstimateMax` surfaces the oracle's
error to the caller immediately and unchanged, aborting at round `j` with
no retry: exactly `j + 1` oracle invocations occur (the failing one
included) and none after it.  The number of rounds already spent is not
part of what the caller receives (see the counterexample). -/
theorem claim_C7_amended {ε : Type} (d : DomainBounds) (k : ℤ) (eps t : ℚ)
    (oracle : Oracle ε) (f : ℕ → ℚ → ℚ) (j : ℕ) (e : ε)
    (hj : (j : ℤ) < k)
    (hok : ∀ i q, i < j → oracle i q = Except.ok (f i q))
    (herr : ∀ q, oracle j q = Except.error e) :
    EstimateMax d oracle ⟨k, eps, t⟩ = Except.error e ∧
    oracleCalls d oracle ⟨k, eps, t⟩ = j + 1 := by
  have hjk : j < k.toNat := by omega
  have h := runLoop_error t oracle f e j k.toNat 0 (initState d) hjk
    (fun m q hm => by
      have := hok m q hm
      simpa using this)
    (fun q => by simpa using herr q)
  constructor
  · show Except.map SearchState.current
        (runLoop t oracle k.toNat 0 (initState d)).1 = _
    rw [h]
    rfl
  · show (runLoop t oracle k.toNat 0 (initState d)).2 = j + 1
    rw [h]

theorem claim_C7_amended_witness :
    ((1 : ℕ) : ℤ) < 10 ∧
    (∀ i q, i < 1 → failFrom 1 i q = Except.ok ((fun _ _ => (1 : ℚ)) i q)) ∧
    (∀ q : ℚ, failFrom 1 1 q = Except.error 7) ∧
    (EstimateMax ⟨0, 4⟩ (failFrom 1) ⟨10, 1, 0⟩ = Except.error 7 ∧
      oracleCalls ⟨0, 4⟩ (failFrom 1) ⟨10, 1, 0⟩ = 1 + 1) := by
  have hok : ∀ i q, i < 1 → failFrom 1 i q = Except.ok ((fun _ _ => (1 : ℚ)) i q) := by
    intro i q hi
    show (if i < 1 then Except.ok 1 else Except.error 7) = Except.ok 1
    rw [if_pos hi]
  have herr : ∀ q : ℚ, failFrom 1 1 q = Except.error 7 := by
    intro q
    show (if 1 < 1 then Except.ok 1 else Except.error 7) = Except.error 7
    rw [if_neg (by omega)]
  exact ⟨by norm_num, hok, herr,
    claim_C7_amended ⟨0, 4⟩ 10 1 0 (failFrom 1) (fun _ _ => 1) 1 7
      (by norm_num) hok herr⟩

theorem claim_C5_witness :
    (0 : ℚ) < 4 ∧
    (((stateAt 0 (fun _ _ => 1) (initState ⟨0, 4⟩) 1).current =
        (stateAt 0 (fun _ _ => 1) (initState ⟨0, 4⟩) 0).current +
          (stateAt 0 (fun _ _ => 1) (initState ⟨0, 4⟩) 0).step ↔
      (fun _ _ => (1 : ℚ)) 0 (stateAt 0 (fun _ _ => 1) (initState ⟨0, 4⟩) 0).current > 0) ∧
     ((stateAt 0 (fun _ _ => 1) (initState ⟨0, 4⟩) 1).current =
        (stateAt 0 (fun _ _ => 1) (initState ⟨0, 4⟩) 0).current -
          (stateAt 0 (fun _ _ => 1) (initState ⟨0, 4⟩) 0).step ↔
      ¬ (fun _ _ => (1 : ℚ)) 0 (stateAt 0 (fun _ _ => 1) (initState ⟨0, 4⟩) 0).current > 0)) :=
  ⟨by norm_num, claim_C5 ⟨0, 4⟩ 0 (fun _ _ => 1) 0 (by norm_num)⟩

end DPNotebook
